import Mathlib

/-!
Verification of the Imposter party-game core (room/lobby manager, round
engine, voting & scoring engine) as implemented in `src/pages/Game.tsx`
and `src/pages/Index.tsx`, against the natural-language specification.

The persisted rows are modelled as Lean structures mirroring the database
columns (`games`, `players` tables of the migrations); each mutating UI
handler is modelled as a pure function from the pre-state to the
post-state it writes.  `Math.floor(Math.random() * k)` draws are modelled
as explicit `Nat` parameters bounded by `k`.
-/

/-- One row of the `players` table, restricted to the columns the game
screens read or write (`id`, `name`, `is_imposter`, `is_eliminated`,
`votes`, `has_voted`, `score`, `turn_order`).  `has_voted` models the
per-voter voted flag (kept client-side as the `hasVoted` React state in
`Game.tsx`); integer columns only ever hold non-negative values here, so
they are modelled as `Nat`. -/
structure Player where
  id : String
  name : String
  is_imposter : Bool
  is_eliminated : Bool
  votes : Nat
  has_voted : Bool
  score : Nat
  turn_order : Nat
deriving Repr, DecidableEq

/-- One row of the `games` table, restricted to the columns the game
screens read or write.  `status` ranges over the database enum values
"waiting", "playing", "finished".  `used_words` is the TEXT[] column
added by the third migration. -/
structure Game where
  id : String
  room_code : String
  status : String
  secret_word : Option String
  category : Option String
  host_id : String
  total_rounds : Nat
  current_round : Nat
  used_words : List String
deriving Repr, DecidableEq

/-- The fixed word table declared identically inside `handleStartGame`
(Game.tsx:154-158) and `handleStartNewRound` (Game.tsx:194-198):
three categories of eight candidate words each. -/
def words : List (String × List String) :=
  [("Animals", ["Dog", "Cat", "Elephant", "Lion", "Tiger", "Bear", "Zebra", "Giraffe"]),
   ("Food", ["Pizza", "Burger", "Sushi", "Pasta", "Taco", "Salad", "Steak", "Soup"]),
   ("Objects", ["Car", "Phone", "Book", "Chair", "Table", "Lamp", "Clock", "Mirror"])]

/-- All candidate words of the table, across the three categories. -/
def allWords : List String := (words.map Prod.snd).flatten

/-- The word selection of Game.tsx:160-161 and Game.tsx:200-201:
`category = Object.keys(words)[floor(random*3)]` and
`word = words[category][floor(random*len)]`.  The two random draws are
the arguments `ci` (category index, < 3) and `wi` (word index, < 8);
the result is the `(category, word)` pair.  Note the source picks from
the full table: `used_words` is neither consulted nor updated. -/
def selectWord (ci wi : Nat) : String × String :=
  let c := words.getD ci ("", [])
  (c.1, c.2.getD wi "")

/-- The `games` update issued by `handleStartGame` (Game.tsx:164-173):
status "playing", the freshly selected word and category, the
host-chosen round count, and `current_round = 1`.  No other column of
the row is patched. -/
def startGameGameUpdate (g : Game) (word cat : String) (rounds : Nat) : Game :=
  { g with status := "playing", secret_word := some word, category := some cat,
           total_rounds := rounds, current_round := 1 }

/-- The per-player update loop of `handleStartGame` (Game.tsx:176-185),
with the loop counter `i` made explicit: player `i` receives
`is_imposter := (i == imposterIdx)`, `turn_order := i`, `score := 0`.
No other column (in particular neither `votes` nor `has_voted` nor
`is_eliminated`) is patched. -/
def assignRoles (imposterIdx : Nat) : Nat → List Player → List Player
  | _, [] => []
  | i, p :: ps =>
      { p with is_imposter := i == imposterIdx, turn_order := i, score := 0 } ::
        assignRoles imposterIdx (i + 1) ps

/-- `handleStartGame`'s player loop started at index 0. -/
def startGamePlayers (players : List Player) (imposterIdx : Nat) : List Player :=
  assignRoles imposterIdx 0 players

/-- The `games` update issued by `handleStartNewRound` (Game.tsx:205-212):
new word and category and `current_round := current_round + 1`.  Neither
`status` nor `used_words` is patched. -/
def startNewRoundGameUpdate (g : Game) (word cat : String) : Game :=
  { g with secret_word := some word, category := some cat,
           current_round := g.current_round + 1 }

/-- The per-player reset loop of `handleStartNewRound` (Game.tsx:215-224):
player `i` receives `is_imposter := (i == imposterIdx)`, `votes := 0`,
`is_eliminated := false`.  No other column is patched. -/
def resetForRound (imposterIdx : Nat) : Nat → List Player → List Player
  | _, [] => []
  | i, p :: ps =>
      { p with is_imposter := i == imposterIdx, votes := 0, is_eliminated := false } ::
        resetForRound imposterIdx (i + 1) ps

/-- `handleStartNewRound`'s player loop started at index 0. -/
def startNewRoundPlayers (players : List Player) (imposterIdx : Nat) : List Player :=
  resetForRound imposterIdx 0 players

/-- Host resolution (Game.tsx:344-349): with a non-empty player list the
effective host is `game.host_id` if some player carries that id, else
the first player of the list (the list is fetched ordered by
`created_at` ascending, so its head is the earliest-joined player);
with an empty list the result is null. -/
def hostPlayerId (g : Game) (players : List Player) : Option String :=
  match players with
  | [] => none
  | p0 :: _ =>
      if players.any (fun p => p.id == g.host_id) then some g.host_id else some p0.id

/-- The vote handler's guard (Game.tsx:251-254): a voter whose local
voted flag is set is rejected and nothing is written. -/
inductive VoteError where
  | AlreadyVoted
deriving Repr, DecidableEq

/-- `handleVote` (Game.tsx:250-271) for one voter: if the voter's voted
flag is already set, the call errors with AlreadyVoted and writes
nothing; otherwise the target row is read back (`find?` by id), its
`votes` column is set to the read value plus one, and the voter's voted
flag becomes true.  If the target row is absent nothing happens.  The
result is (error?, voter's voted flag, player rows). -/
def castVote (hasVoted : Bool) (players : List Player) (targetId : String) :
    Option VoteError × Bool × List Player :=
  if hasVoted then (some .AlreadyVoted, hasVoted, players)
  else
    match players.find? (fun p => p.id == targetId) with
    | none => (none, hasVoted, players)
    | some t =>
        (none, true,
          players.map (fun p =>
            if p.id == targetId then { p with votes := t.votes + 1 } else p))

/-- Insertion step of the stable descending sort by votes: the new
element `p` goes after every element with strictly more votes and
before the first element with equally many or fewer. -/
def sortInsert (p : Player) : List Player → List Player
  | [] => [p]
  | q :: qs => if p.votes < q.votes then q :: sortInsert p qs else p :: q :: qs

/-- Stable sort by votes, descending, as produced by the JavaScript
`players.sort((a, b) => b.votes - a.votes)` (Array.prototype.sort is
stable, so players with equal vote counts keep their original relative
order).  Built by inserting the earlier elements into the sorted later
ones, placing an earlier element before its equals. -/
def sortVotesDesc : List Player → List Player
  | [] => []
  | p :: ps => sortInsert p (sortVotesDesc ps)

/-- `mostVoted` of `handleRevealResults` (Game.tsx:278-280): head of the
non-eliminated players sorted by votes descending. -/
def mostVoted (players : List Player) : Option Player :=
  (sortVotesDesc (players.filter (fun p => !p.is_eliminated))).head?

/-- First element attaining the running maximum of votes; functional
characterisation of the head of the stable descending sort. -/
def firstMax : List Player → Option Player
  | [] => none
  | p :: ps =>
      match firstMax ps with
      | none => some p
      | some m => some (if p.votes < m.votes then m else p)

/-- Modelled from the spec's words, for comparison with the code's
`mostVoted`: the first non-eliminated player (in the existing player
ordering) whose vote count is at least every other non-eliminated
player's vote count. -/
def specMostVoted (players : List Player) : Option Player :=
  let elig := players.filter (fun p => !p.is_eliminated)
  elig.find? (fun p => elig.all (fun q => q.votes ≤ p.votes))

/-- `handleRevealResults` (Game.tsx:273-306): `imposter` is the first
player row flagged `is_imposter`; `didPlayersWin` models the JavaScript
`mostVoted?.id === imposter?.id` (true when both sides are `undefined`,
i.e. when neither an imposter row nor a non-eliminated player exists).
If the players win, every non-imposter row (eliminated ones included)
gets `score + 10`; otherwise, when an imposter row exists, the rows
carrying the imposter's id get `score := imposter.score + 20`. -/
def revealResults (players : List Player) : List Player :=
  let imposter := players.find? (fun p => p.is_imposter)
  let mv := mostVoted players
  let didPlayersWin : Bool :=
    match mv, imposter with
    | some m, some i => m.id == i.id
    | none, none => true
    | _, _ => false
  if didPlayersWin then
    players.map (fun p =>
      if p.is_imposter then p else { p with score := p.score + 10 })
  else
    match imposter with
    | some i =>
        players.map (fun p =>
          if p.id == i.id then { p with score := i.score + 20 } else p)
    | none => players

/-- `handleEndGame` (Game.tsx:308-317): the only patched column is
`status`, set to "finished". -/
def endGame (g : Game) : Game := { g with status := "finished" }

/-- Render condition of the Start Round button (Game.tsx:421, 585-594):
it exists only while the client's game row has status "playing", results
are shown, the client is the resolved host, and
`current_round < total_rounds`. -/
def startNewRoundOffered (g : Game) (players : List Player) (currentPlayerId : String)
    (showResults : Bool) : Bool :=
  (g.status == "playing") && showResults &&
    (hostPlayerId g players == some currentPlayerId) &&
    (g.current_round < g.total_rounds)

/-- Render/enabled condition of a Vote button for `target`
(Game.tsx:421, 531-532, 559-564): status "playing", target not
eliminated, results not shown, target is not the voter, and the voter
has not voted yet (the button is disabled once `hasVoted`). -/
def voteOffered (g : Game) (target : Player) (currentPlayerId : String)
    (showResults hasVoted : Bool) : Bool :=
  (g.status == "playing") && !target.is_eliminated && !showResults &&
    (target.id != currentPlayerId) && !hasVoted

/-- Errors of the start-game gate. -/
inductive StartError where
  | InsufficientPlayers
  | NotHost
deriving Repr, DecidableEq

/-- The start-game action as exposed by the lobby screen: with fewer
than three players the Start button is not rendered and the lobby shows
the insufficient-players notice instead (Game.tsx:405-417), modelled as
the InsufficientPlayers rejection leaving both rows untouched; a
non-host never gets the button (Game.tsx:387); otherwise
`handleStartGame` runs with the two word-selection draws `ci`, `wi` and
the imposter draw `imposterIdx`. -/
def startGameClick (g : Game) (players : List Player) (currentPlayerId : String)
    (rounds ci wi imposterIdx : Nat) : Option StartError × Game × List Player :=
  if players.length < 3 then (some .InsufficientPlayers, g, players)
  else if hostPlayerId g players == some currentPlayerId then
    (none, startGameGameUpdate g (selectWord ci wi).2 (selectWord ci wi).1 rounds,
      startGamePlayers players imposterIdx)
  else (some .NotHost, g, players)

/-- `handleCreateGame` (src/unnamed/part_001:26-68): inserts a `games`
row carrying only `room_code`, `host_id` (a freshly generated UUID) and
`status` "waiting" — the remaining columns take their schema defaults
(null word and category, `total_rounds` 3, `current_round` 1, empty
`used_words`) — and then one `players` row for the creator with
`name := playerName.trim()` and the player-column defaults.  The new
player's id is generated by the database, here the parameter
`playerId`. -/
def createGame (playerName code hostId gameId playerId : String) : Game × List Player :=
  ({ id := gameId, room_code := code, status := "waiting", secret_word := none,
     category := none, host_id := hostId, total_rounds := 3, current_round := 1,
     used_words := [] },
   [{ id := playerId, name := playerName.trim, is_imposter := false,
      is_eliminated := false, votes := 0, has_voted := false, score := 0,
      turn_order := 0 }])

/-- Sample data used to instantiate the theorems on concrete rows. -/
def samplePlayerA : Player :=
  { id := "a", name := "Ann", is_imposter := false, is_eliminated := false,
    votes := 0, has_voted := false, score := 0, turn_order := 0 }

def samplePlayerB : Player :=
  { id := "b", name := "Ben", is_imposter := false, is_eliminated := false,
    votes := 0, has_voted := false, score := 0, turn_order := 0 }

def sampleGame : Game :=
  { id := "g1", room_code := "ABCD", status := "waiting", secret_word := none,
    category := none, host_id := "h1", total_rounds := 3, current_round := 1,
    used_words := [] }

/-- A game mid-round: one word already recorded in `used_words`. -/
def samplePlayingGame : Game :=
  { id := "g2", room_code := "WXYZ", status := "playing", secret_word := some "Dog",
    category := some "Animals", host_id := "h2", total_rounds := 3,
    current_round := 1, used_words := ["Dog"] }

def sampleImposter : Player :=
  { id := "i", name := "Ivy", is_imposter := true, is_eliminated := false,
    votes := 1, has_voted := true, score := 0, turn_order := 0 }

def sampleTarget : Player :=
  { id := "t", name := "Tom", is_imposter := false, is_eliminated := false,
    votes := 2, has_voted := true, score := 5, turn_order := 1 }

def sampleEliminated : Player :=
  { id := "e", name := "Eve", is_imposter := false, is_eliminated := true,
    votes := 0, has_voted := false, score := 3, turn_order := 2 }

def sampleVoted : Player :=
  { id := "v", name := "Val", is_imposter := false, is_eliminated := false,
    votes := 2, has_voted := true, score := 0, turn_order := 0 }

/-- C8: for a non-empty player list, resolveHost returns `game.host_id`
whenever some player's id equals it, and otherwise the id of the first
(earliest-joined) player; for an empty list it returns null. -/
theorem resolveHost_spec (g : Game) (players : List Player) :
    ((∃ p ∈ players, p.id = g.host_id) → hostPlayerId g players = some g.host_id) ∧
    ((¬ ∃ p ∈ players, p.id = g.host_id) →
      ∀ p0 ps, players = p0 :: ps → hostPlayerId g players = some p0.id) ∧
    (players = [] → hostPlayerId g players = none) := by
  refine ⟨?_, ?_, ?_⟩
  · intro h
    obtain ⟨p, hp, hid⟩ := h
    cases players with
    | nil => cases hp
    | cons q qs =>
        simp only [hostPlayerId]
        rw [if_pos]
        rw [List.any_eq_true]
        exact ⟨p, hp, by simp [hid]⟩
  · intro h p0 ps hps
    subst hps
    simp only [hostPlayerId]
    rw [if_neg]
    intro hc
    rw [List.any_eq_true] at hc
    obtain ⟨p, hp, hid⟩ := hc
    exact h ⟨p, hp, by simpa using hid⟩
  · intro h; subst h; rfl

theorem resolveHost_spec_witness :
    hostPlayerId sampleGame [samplePlayerA, samplePlayerB] = some "a" := by
  have h := (resolveHost_spec sampleGame [samplePlayerA, samplePlayerB]).2.1
    (by decide) samplePlayerA [samplePlayerB] rfl
  simpa [samplePlayerA] using h

/-! Helper lemmas about the per-player update loops. -/

theorem assignRoles_map_score (idx : Nat) (ps : List Player) :
    ∀ i, (assignRoles idx i ps).map Player.score = ps.map (fun _ => 0) := by
  induction ps with
  | nil => intro i; rfl
  | cons p ps ih => intro i; simp [assignRoles, ih (i + 1)]

theorem assignRoles_map_turn (idx : Nat) (ps : List Player) :
    ∀ i, (assignRoles idx i ps).map Player.turn_order = List.range' i ps.length := by
  induction ps with
  | nil => intro i; rfl
  | cons p ps ih => intro i; simp [assignRoles, ih (i + 1), List.range'_succ]

theorem assignRoles_map_votes (idx : Nat) (ps : List Player) :
    ∀ i, (assignRoles idx i ps).map Player.votes = ps.map Player.votes := by
  induction ps with
  | nil => intro i; rfl
  | cons p ps ih => intro i; simp [assignRoles, ih (i + 1)]

theorem assignRoles_map_has_voted (idx : Nat) (ps : List Player) :
    ∀ i, (assignRoles idx i ps).map Player.has_voted = ps.map Player.has_voted := by
  induction ps with
  | nil => intro i; rfl
  | cons p ps ih => intro i; simp [assignRoles, ih (i + 1)]

theorem assignRoles_map_elim (idx : Nat) (ps : List Player) :
    ∀ i, (assignRoles idx i ps).map Player.is_eliminated = ps.map Player.is_eliminated := by
  induction ps with
  | nil => intro i; rfl
  | cons p ps ih => intro i; simp [assignRoles, ih (i + 1)]

theorem assignRoles_countP (idx : Nat) (ps : List Player) :
    ∀ i, (assignRoles idx i ps).countP (fun p => p.is_imposter) =
      if i ≤ idx ∧ idx < i + ps.length then 1 else 0 := by
  induction ps with
  | nil =>
      intro i
      simp only [assignRoles, List.countP_nil, List.length_nil, Nat.add_zero]
      split
      · omega
      · rfl
  | cons p ps ih =>
      intro i
      simp only [assignRoles, List.countP_cons, ih (i + 1), List.length_cons]
      simp only [beq_iff_eq]
      split_ifs <;> omega

theorem resetForRound_countP (idx : Nat) (ps : List Player) :
    ∀ i, (resetForRound idx i ps).countP (fun p => p.is_imposter) =
      if i ≤ idx ∧ idx < i + ps.length then 1 else 0 := by
  induction ps with
  | nil =>
      intro i
      simp only [resetForRound, List.countP_nil, List.length_nil, Nat.add_zero]
      split
      · omega
      · rfl
  | cons p ps ih =>
      intro i
      simp only [resetForRound, List.countP_cons, ih (i + 1), List.length_cons]
      simp only [beq_iff_eq]
      split_ifs <;> omega

theorem resetForRound_elim (idx : Nat) (ps : List Player) :
    ∀ i, ∀ p ∈ resetForRound idx i ps, p.is_eliminated = false := by
  induction ps with
  | nil => intro i p hp; cases hp
  | cons q qs ih =>
      intro i p hp
      rcases List.mem_cons.mp hp with h | h
      · subst h; rfl
      · exact ih (i + 1) p h

/-- Pairing a list with its elementwise image: every pair consists of an
element of the list and its image. -/
theorem mem_zip_map {α : Type} (f : α → α) (l : List α) :
    ∀ pr ∈ l.zip (l.map f), pr.2 = f pr.1 ∧ pr.1 ∈ l := by
  induction l with
  | nil => intro pr h; cases h
  | cons x xs ih =>
      intro pr h
      rw [List.map_cons, List.zip_cons_cons] at h
      rcases List.mem_cons.mp h with h | h
      · subst h; exact ⟨rfl, List.mem_cons_self _ _⟩
      · exact ⟨(ih pr h).1, List.mem_cons_of_mem _ (ih pr h).2⟩

/-- C1 (code bug): the word-selection step ignores `used_words`
entirely.  On the concrete game whose `used_words` is exactly ["Dog"]
— so the 24-word pool is far from exhausted — the draw (0, 0) selects
"Dog" again, and the round-start update leaves `used_words` exactly as
it was: the chosen word is neither excluded nor appended, contradicting
the non-repetition algorithm the spec (and the `used_words` column's
own schema comment) describe. -/
theorem wordSelection_ignores_used_words_bug :
    (selectWord 0 0).2 = "Dog" ∧
    "Dog" ∈ samplePlayingGame.used_words ∧
    (∃ w ∈ allWords, w ∉ samplePlayingGame.used_words) ∧
    (startNewRoundGameUpdate samplePlayingGame (selectWord 0 0).2
        (selectWord 0 0).1).used_words = samplePlayingGame.used_words := by
  refine ⟨rfl, by decide, ⟨"Cat", by decide, by decide⟩, rfl⟩

/-- C2 counterexample: on a waiting game with three players, one of whom
carries a non-zero `votes` count and a set voted flag, `handleStartGame`
does not reset `votes`/`has_voted` — its player patch only touches
`is_imposter`, `turn_order` and `score`. -/
theorem startGame_reset_counterexample :
    sampleGame.status = "waiting" ∧
    3 ≤ [sampleVoted, samplePlayerA, samplePlayerB].length ∧
    ¬ ∀ p ∈ startGamePlayers [sampleVoted, samplePlayerA, samplePlayerB] 0,
        (p.votes = 0 ∧ p.has_voted = false) := by decide

/-- C2 (amended): for a waiting game with N ≥ 3 players, startGame sets
status to "playing", current_round to 1 and total_rounds to the chosen
value, resets every player's score to 0, and assigns turn_order as the
identity permutation 0..N-1 over the current ordering; it leaves every
player's `votes` and `has_voted` unchanged (their reset at game start is
not performed by the code). -/
theorem startGame_spec (g : Game) (players : List Player) (word cat : String)
    (rounds imposterIdx : Nat)
    (hst : g.status = "waiting") (hn : 3 ≤ players.length) :
    (startGameGameUpdate g word cat rounds).status = "playing" ∧
    (startGameGameUpdate g word cat rounds).current_round = 1 ∧
    (startGameGameUpdate g word cat rounds).total_rounds = rounds ∧
    (startGamePlayers players imposterIdx).map Player.score = players.map (fun _ => 0) ∧
    (startGamePlayers players imposterIdx).map Player.turn_order = List.range players.length ∧
    (startGamePlayers players imposterIdx).map Player.votes = players.map Player.votes ∧
    (startGamePlayers players imposterIdx).map Player.has_voted = players.map Player.has_voted := by
  refine ⟨rfl, rfl, rfl, assignRoles_map_score imposterIdx players 0, ?_,
    assignRoles_map_votes imposterIdx players 0, assignRoles_map_has_voted imposterIdx players 0⟩
  rw [List.range_eq_range']
  exact assignRoles_map_turn imposterIdx players 0

theorem startGame_spec_witness :
    (startGamePlayers [sampleVoted, samplePlayerA, samplePlayerB] 1).map Player.turn_order
      = List.range 3 :=
  (startGame_spec sampleGame [sampleVoted, samplePlayerA, samplePlayerB]
    "Dog" "Animals" 3 1 rfl (by decide)).2.2.2.2.1

/-- C5 counterexample: `handleStartGame` does not touch `is_eliminated`,
so starting a game over a player list containing an eliminated player
leaves that player eliminated, against the claim that every player is
non-eliminated immediately after any round start. -/
theorem roundStart_eliminated_counterexample :
    ¬ ∀ p ∈ startGamePlayers [sampleEliminated, samplePlayerA, samplePlayerB] 0,
        p.is_eliminated = false := by decide

/-- C5 (amended): with the imposter draw in range, exactly one player is
flagged imposter immediately after startGame and after startNewRound;
startNewRound additionally resets every player's `is_eliminated` to
false, while startGame leaves `is_eliminated` exactly as it was (so
all-non-eliminated holds after startGame only if it held before). -/
theorem roundStart_imposter_spec (players : List Player) (imposterIdx : Nat)
    (h : imposterIdx < players.length) :
    (startGamePlayers players imposterIdx).countP (fun p => p.is_imposter) = 1 ∧
    (startNewRoundPlayers players imposterIdx).countP (fun p => p.is_imposter) = 1 ∧
    (∀ p ∈ startNewRoundPlayers players imposterIdx, p.is_eliminated = false) ∧
    (startGamePlayers players imposterIdx).map Player.is_eliminated
      = players.map Player.is_eliminated := by
  refine ⟨?_, ?_, resetForRound_elim imposterIdx players 0,
    assignRoles_map_elim imposterIdx players 0⟩
  · rw [startGamePlayers, assignRoles_countP imposterIdx players 0, if_pos]
    omega
  · rw [startNewRoundPlayers, resetForRound_countP imposterIdx players 0, if_pos]
    omega

theorem roundStart_imposter_spec_witness :
    (startGamePlayers [sampleEliminated, samplePlayerA, samplePlayerB] 2).countP
      (fun p => p.is_imposter) = 1 :=
  (roundStart_imposter_spec [sampleEliminated, samplePlayerA, samplePlayerB] 2
    (by decide)).1

/-- C4: with the voter flagged as having voted, castVote fails with
AlreadyVoted and changes no player's votes; otherwise (the target row
being found) it succeeds, sets the voter's voted flag, gives the target
exactly one more vote and leaves every other player's votes
unchanged. -/
theorem castVote_spec (players : List Player) (targetId : String) (t : Player)
    (hids : (players.map Player.id).Nodup)
    (hfind : players.find? (fun p => p.id == targetId) = some t) :
    castVote true players targetId = (some VoteError.AlreadyVoted, true, players) ∧
    (castVote false players targetId).1 = none ∧
    (castVote false players targetId).2.1 = true ∧
    ∀ pr ∈ players.zip (castVote false players targetId).2.2,
      (pr.1.id = targetId → pr.2.votes = pr.1.votes + 1) ∧
      (pr.1.id ≠ targetId → pr.2.votes = pr.1.votes) := by
  have ht : t ∈ players := List.mem_of_find?_eq_some hfind
  have htid : t.id = targetId := by
    have := List.find?_some hfind
    simpa using this
  refine ⟨rfl, ?_, ?_, ?_⟩
  · simp [castVote, hfind]
  · simp [castVote, hfind]
  · intro pr hpr
    have hcv : (castVote false players targetId).2.2 = players.map (fun p =>
        if p.id == targetId then { p with votes := t.votes + 1 } else p) := by
      simp [castVote, hfind]
    rw [hcv] at hpr
    have hmem := mem_zip_map
      (fun p => if p.id == targetId then { p with votes := t.votes + 1 } else p)
      players pr hpr
    constructor
    · intro hid
      have hp1 : pr.1 = t := by
        refine List.inj_on_of_nodup_map hids hmem.2 ht ?_
        rw [hid, htid]
      have hbeq : (pr.1.id == targetId) = true := by
        rw [beq_iff_eq]; exact hid
      rw [hmem.1]
      simp [hbeq, hp1, htid]
    · intro hid
      have hbeq : (pr.1.id == targetId) = false := beq_eq_false_iff_ne.mpr hid
      rw [hmem.1]
      simp [hbeq]

theorem castVote_spec_witness :
    (castVote false [samplePlayerA, sampleTarget] "t").2.1 = true :=
  (castVote_spec [samplePlayerA, sampleTarget] "t" sampleTarget
    (by decide) (by decide)).2.2.1

/-- C6 counterexample: the claim that a finished game admits no
succeeding startNewRound call fails at the operation layer —
`handleStartNewRound` performs no status check, so invoked against the
concrete finished game it still mutates the row, advancing
`current_round`. -/
theorem endGame_terminality_counterexample :
    (endGame samplePlayingGame).status = "finished" ∧
    startNewRoundGameUpdate (endGame samplePlayingGame) "Cat" "Animals"
      ≠ endGame samplePlayingGame ∧
    (startNewRoundGameUpdate (endGame samplePlayingGame) "Cat" "Animals").current_round
      = 2 := by decide

/-- C6 (amended): endGame sets status to "finished"; from then on the UI
offers neither the Start Round button nor any Vote button (both render
conditions require status "playing"), but the underlying
startNewRound/castVote operations are not themselves guarded on the
game status, so a direct call against the finished rows still mutates
them. -/
theorem endGame_gating_spec (g : Game) (players : List Player) (currentPlayerId : String)
    (showResults hasVoted : Bool) (target : Player) :
    (endGame g).status = "finished" ∧
    (g.status = "finished" →
      startNewRoundOffered g players currentPlayerId showResults = false) ∧
    (g.status = "finished" →
      voteOffered g target currentPlayerId showResults hasVoted = false) := by
  refine ⟨rfl, ?_, ?_⟩
  · intro h; simp [startNewRoundOffered, h]
  · intro h; simp [voteOffered, h]

theorem endGame_gating_spec_witness :
    startNewRoundOffered (endGame samplePlayingGame) [sampleImposter] "i" true = false :=
  have h := endGame_gating_spec (endGame samplePlayingGame) [sampleImposter] "i"
    true false sampleTarget
  h.2.1 h.1

/-- C7: with fewer than three players the start-game action is rejected
with InsufficientPlayers and both the game row and every player row are
returned unchanged. -/
theorem startGame_insufficient_players (g : Game) (players : List Player)
    (currentPlayerId : String) (rounds ci wi imposterIdx : Nat)
    (h : players.length < 3) :
    startGameClick g players currentPlayerId rounds ci wi imposterIdx =
      (some StartError.InsufficientPlayers, g, players) := by
  simp [startGameClick, h]

theorem startGame_insufficient_players_witness :
    startGameClick sampleGame [samplePlayerA, samplePlayerB] "a" 3 0 0 0 =
      (some StartError.InsufficientPlayers, sampleGame, [samplePlayerA, samplePlayerB]) :=
  startGame_insufficient_players sampleGame [samplePlayerA, samplePlayerB] "a" 3 0 0 0
    (by decide)

/-- C10: createGame inserts the waiting game row together with exactly
one player row for the creator, whose name is the entered name trimmed
of surrounding whitespace; since the generated host id differs from the
player's id, host resolution falls back to the earliest-joined player,
i.e. the creator. -/
theorem createGame_spec (playerName code hostId gameId playerId : String)
    (h : hostId ≠ playerId) :
    (createGame playerName code hostId gameId playerId).1.status = "waiting" ∧
    (createGame playerName code hostId gameId playerId).2.length = 1 ∧
    (createGame playerName code hostId gameId playerId).2.map Player.name
      = [playerName.trim] ∧
    hostPlayerId (createGame playerName code hostId gameId playerId).1
      (createGame playerName code hostId gameId playerId).2 = some playerId := by
  refine ⟨rfl, rfl, rfl, ?_⟩
  have hb : (playerId == hostId) = false := by
    rw [beq_eq_false_iff_ne]
    exact fun hc => h hc.symm
  simp [createGame, hostPlayerId, hb]

theorem createGame_spec_witness :
    hostPlayerId (createGame " Ann " "ABCD" "h9" "g9" "p9").1
      (createGame " Ann " "ABCD" "h9" "g9" "p9").2 = some "p9" :=
  (createGame_spec " Ann " "ABCD" "h9" "g9" "p9" (by decide)).2.2.2

/-! Lemmas characterising the head of the stable descending sort. -/

theorem sortInsert_head_cons (p q : Player) (qs : List Player) :
    (sortInsert p (q :: qs)).head? = some (if p.votes < q.votes then q else p) := by
  by_cases hc : p.votes < q.votes
  · simp [sortInsert, hc]
  · simp [sortInsert, hc]

theorem firstMax_none (l : List Player) : firstMax l = none → l = [] := by
  cases l with
  | nil => intro h; rfl
  | cons p ps =>
      intro h
      cases hf : firstMax ps with
      | none => simp [firstMax, hf] at h
      | some m => simp [firstMax, hf] at h

theorem firstMax_mem (l : List Player) : ∀ m, firstMax l = some m → m ∈ l := by
  induction l with
  | nil => intro m h; cases h
  | cons p ps ih =>
      intro m h
      cases hf : firstMax ps with
      | none =>
          simp [firstMax, hf] at h
          rw [← h]
          exact List.mem_cons_self p ps
      | some q =>
          simp [firstMax, hf] at h
          by_cases hc : p.votes < q.votes
          · rw [if_pos hc] at h
            rw [← h]
            exact List.mem_cons_of_mem p (ih q hf)
          · rw [if_neg hc] at h
            rw [← h]
            exact List.mem_cons_self p ps

theorem firstMax_le (l : List Player) :
    ∀ m, firstMax l = some m → ∀ r ∈ l, r.votes ≤ m.votes := by
  induction l with
  | nil => intro m h; cases h
  | cons p ps ih =>
      intro m h r hr
      cases hf : firstMax ps with
      | none =>
          have hps : ps = [] := firstMax_none ps hf
          subst hps
          simp [firstMax, hf] at h
          rcases List.mem_cons.mp hr with h1 | h1
          · rw [h1, ← h]
          · cases h1
      | some mm =>
          simp [firstMax, hf] at h
          by_cases hc : p.votes < mm.votes
          · rw [if_pos hc] at h
            rcases List.mem_cons.mp hr with h1 | h1
            · rw [h1, ← h]; exact Nat.le_of_lt hc
            · rw [← h]; exact ih mm hf r h1
          · rw [if_neg hc] at h
            rcases List.mem_cons.mp hr with h1 | h1
            · rw [h1, ← h]
            · calc r.votes ≤ mm.votes := ih mm hf r h1
                _ ≤ p.votes := Nat.le_of_not_lt hc
                _ = m.votes := by rw [h]

theorem sortVotesDesc_head (l : List Player) : (sortVotesDesc l).head? = firstMax l := by
  induction l with
  | nil => rfl
  | cons p ps ih =>
      cases hf : firstMax ps with
      | none =>
          have hps : ps = [] := firstMax_none ps hf
          subst hps
          simp [sortVotesDesc, sortInsert, firstMax]
      | some m =>
          have hh : (sortVotesDesc ps).head? = some m := by rw [ih, hf]
          obtain ⟨q, qs, hqs⟩ : ∃ q qs, sortVotesDesc ps = q :: qs := by
            cases hsp : sortVotesDesc ps with
            | nil => rw [hsp] at hh; cases hh
            | cons q qs => exact ⟨q, qs, rfl⟩
          have hq : q = m := by rw [hqs] at hh; simpa using hh
          simp only [sortVotesDesc]
          rw [hqs, sortInsert_head_cons, hq]
          simp [firstMax, hf]

theorem find?_congr_local {α : Type} (f g : α → Bool) :
    ∀ l : List α, (∀ x ∈ l, f x = g x) → l.find? f = l.find? g := by
  intro l
  induction l with
  | nil => intro h; rfl
  | cons x xs ih =>
      intro h
      cases hgx : g x with
      | true => simp [List.find?_cons, h x (List.mem_cons_self x xs), hgx]
      | false =>
          simp only [List.find?_cons, h x (List.mem_cons_self x xs), hgx]
          exact ih (fun y hy => h y (List.mem_cons_of_mem x hy))

theorem firstMax_eq_find (l : List Player) :
    firstMax l = l.find? (fun p => l.all (fun q => q.votes ≤ p.votes)) := by
  induction l with
  | nil => rfl
  | cons p ps ih =>
      have hself : decide (p.votes ≤ p.votes) = true := decide_eq_true (Nat.le_refl _)
      by_cases hA : ps.all (fun q => decide (q.votes ≤ p.votes)) = true
      · have hR : (p :: ps).find?
            (fun x => (p :: ps).all (fun q => decide (q.votes ≤ x.votes))) = some p := by
          apply List.find?_cons_of_pos
          simp [List.all_cons, hself, hA]
        rw [hR]
        cases hf : firstMax ps with
        | none => simp [firstMax, hf]
        | some m =>
            have hmle : m.votes ≤ p.votes := by
              simpa using List.all_eq_true.mp hA m (firstMax_mem ps m hf)
            simp [firstMax, hf, Nat.not_lt.mpr hmle]
      · simp only [Bool.not_eq_true] at hA
        obtain ⟨q, hq, hqv⟩ : ∃ q ∈ ps, ¬(q.votes ≤ p.votes) := by
          simpa using List.all_eq_false.mp hA
        have hps : ps ≠ [] := by
          intro hc
          subst hc
          cases hq
        obtain ⟨m, hf⟩ : ∃ m, firstMax ps = some m := by
          cases hfm : firstMax ps with
          | none => exact absurd (firstMax_none ps hfm) hps
          | some m => exact ⟨m, rfl⟩
        have hpq : p.votes < q.votes := Nat.not_le.mp hqv
        have hpm : p.votes < m.votes :=
          Nat.lt_of_lt_of_le hpq (firstMax_le ps m hf q hq)
        have hL : firstMax (p :: ps) = some m := by simp [firstMax, hf, hpm]
        have hR : (p :: ps).find? (fun x => (p :: ps).all (fun q2 => decide (q2.votes ≤ x.votes)))
            = ps.find? (fun x => (p :: ps).all (fun q2 => decide (q2.votes ≤ x.votes))) := by
          simp only [List.find?_cons]
          have hfalse : ((p :: ps).all (fun q2 => decide (q2.votes ≤ p.votes))) = false := by
            simp [List.all_cons, hA]
          simp [hfalse]
        rw [hL, hR]
        have hcong : ps.find? (fun x => (p :: ps).all (fun q2 => decide (q2.votes ≤ x.votes)))
            = ps.find? (fun x => ps.all (fun q2 => decide (q2.votes ≤ x.votes))) := by
          apply find?_congr_local
          intro x hx
          cases hGx : ps.all (fun q2 => decide (q2.votes ≤ x.votes)) with
          | true =>
              have hqx : q.votes ≤ x.votes := by
                simpa using List.all_eq_true.mp hGx q hq
              have hpx : p.votes ≤ x.votes := Nat.le_of_lt (Nat.lt_of_lt_of_le hpq hqx)
              simp [List.all_cons, hGx, hpx]
          | false => simp [List.all_cons, hGx]
        rw [hcong, ← ih, hf]

/-- The code's `mostVoted` coincides with the specification's wording:
the first non-eliminated player, in the existing ordering, whose vote
count is at least every other non-eliminated player's. -/
theorem mostVoted_eq_spec (players : List Player) :
    mostVoted players = specMostVoted players := by
  rw [mostVoted, specMostVoted, sortVotesDesc_head, firstMax_eq_find]

theorem mostVoted_isSome (players : List Player)
    (helig : ∃ p ∈ players, p.is_eliminated = false) :
    ∃ m, mostVoted players = some m := by
  obtain ⟨p, hp, hpe⟩ := helig
  have hpelig : p ∈ players.filter (fun q => !q.is_eliminated) :=
    List.mem_filter.mpr ⟨hp, by simp [hpe]⟩
  rw [mostVoted, sortVotesDesc_head]
  cases hfm : firstMax (players.filter (fun q => !q.is_eliminated)) with
  | none =>
      rw [firstMax_none _ hfm] at hpelig
      cases hpelig
  | some m => exact ⟨m, rfl⟩

theorem find?_eq_some_of_unique {α : Type} (pred : α → Bool) :
    ∀ (l : List α) (a : α), a ∈ l → pred a = true →
      (∀ b ∈ l, pred b = true → b = a) → l.find? pred = some a := by
  intro l
  induction l with
  | nil => intro a ha; cases ha
  | cons x xs ih =>
      intro a ha hpa huniq
      by_cases hx : pred x = true
      · have hxa : x = a := huniq x (List.mem_cons_self x xs) hx
        subst hxa
        simp [List.find?_cons, hx]
      · have hxf : pred x = false := by
          cases hpx : pred x with
          | true => exact absurd hpx hx
          | false => rfl
        simp only [List.find?_cons, hxf]
        have ha' : a ∈ xs := by
          rcases List.mem_cons.mp ha with h | h
          · subst h; exact absurd hpa hx
          · exact h
        exact ih a ha' hpa (fun b hb hpb => huniq b (List.mem_cons_of_mem x hb) hpb)

/-- C3: over a player list with exactly one imposter, distinct ids, and
at least one non-eliminated player, the reveal's mostVoted is exactly
the player the spec describes (first non-eliminated maximum of votes),
and the scoring is: if mostVoted carries the imposter's id, every
non-imposter's score grows by exactly 10 (eliminated players included)
and the imposter's is unchanged; otherwise the imposter's score grows
by exactly 20 and every other score is unchanged. -/
theorem revealResults_scoring_spec (players : List Player) (i : Player)
    (hmem : i ∈ players) (himp : i.is_imposter = true)
    (huniq : ∀ q ∈ players, q.is_imposter = true → q = i)
    (hids : (players.map Player.id).Nodup)
    (helig : ∃ p ∈ players, p.is_eliminated = false) :
    mostVoted players = specMostVoted players ∧
    ∃ m, mostVoted players = some m ∧
      (m.id = i.id →
        ∀ pr ∈ players.zip (revealResults players),
          (pr.1.is_imposter = false → pr.2.score = pr.1.score + 10) ∧
          (pr.1.is_imposter = true → pr.2.score = pr.1.score)) ∧
      (m.id ≠ i.id →
        ∀ pr ∈ players.zip (revealResults players),
          (pr.1.is_imposter = true → pr.2.score = pr.1.score + 20) ∧
          (pr.1.is_imposter = false → pr.2.score = pr.1.score)) := by
  have hfind : players.find? (fun p => p.is_imposter) = some i :=
    find?_eq_some_of_unique _ players i hmem himp huniq
  obtain ⟨m, hm⟩ := mostVoted_isSome players helig
  refine ⟨mostVoted_eq_spec players, m, hm, ?_, ?_⟩
  · intro hid pr hpr
    have hbeq : (m.id == i.id) = true := by rw [beq_iff_eq]; exact hid
    have hrr : revealResults players = players.map (fun p =>
        if p.is_imposter then p else { p with score := p.score + 10 }) := by
      simp only [revealResults, hfind, hm]
      simp [hbeq]
    rw [hrr] at hpr
    have hpair := mem_zip_map
      (fun p => if p.is_imposter then p else { p with score := p.score + 10 })
      players pr hpr
    constructor
    · intro hni
      rw [hpair.1]
      simp [hni]
    · intro hyi
      rw [hpair.1]
      simp [hyi]
  · intro hid pr hpr
    have hbeq : (m.id == i.id) = false := beq_eq_false_iff_ne.mpr hid
    have hrr : revealResults players = players.map (fun p =>
        if p.id == i.id then { p with score := i.score + 20 } else p) := by
      simp only [revealResults, hfind, hm]
      simp [hbeq]
    rw [hrr] at hpr
    have hpair := mem_zip_map
      (fun p => if p.id == i.id then { p with score := i.score + 20 } else p)
      players pr hpr
    constructor
    · intro hyi
      have hp1 : pr.1 = i := huniq pr.1 hpair.2 hyi
      rw [hpair.1]
      simp [hp1]
    · intro hni
      have hp1 : pr.1 ≠ i := by
        intro hc
        rw [hc] at hni
        rw [himp] at hni
        cases hni
      have hidne : pr.1.id ≠ i.id := by
        intro hc
        exact hp1 (List.inj_on_of_nodup_map hids hpair.2 hmem hc)
      have hbne : (pr.1.id == i.id) = false := beq_eq_false_iff_ne.mpr hidne
      rw [hpair.1]
      simp [hbne]

theorem revealResults_scoring_spec_witness :
    mostVoted [sampleImposter, sampleTarget, samplePlayerA]
      = specMostVoted [sampleImposter, sampleTarget, samplePlayerA] :=
  (revealResults_scoring_spec [sampleImposter, sampleTarget, samplePlayerA]
    sampleImposter (by decide) (by decide) (by decide) (by decide) (by decide)).1

/-- C9: when no player is flagged imposter but at least one player is
non-eliminated, the reveal changes nothing: the players-win comparison
is false (a present mostVoted id against a missing imposter id) and the
imposter award is guarded on the imposter row existing, so every
player's score — indeed every row — is left unchanged. -/
theorem revealResults_no_imposter_frame (players : List Player)
    (himp : ∀ p ∈ players, p.is_imposter = false)
    (helig : ∃ p ∈ players, p.is_eliminated = false) :
    revealResults players = players := by
  have hf : players.find? (fun p => p.is_imposter) = none := by
    rw [List.find?_eq_none]
    intro x hx
    simp [himp x hx]
  obtain ⟨m, hm⟩ := mostVoted_isSome players helig
  simp only [revealResults, hf, hm]
  simp

theorem revealResults_no_imposter_frame_witness :
    revealResults [samplePlayerA, sampleTarget] = [samplePlayerA, sampleTarget] :=
  revealResults_no_imposter_frame [samplePlayerA, sampleTarget] (by decide) (by decide)
